import Mathlib

/-!
Verification of the sunbeam launcher core: a shallow embedding of the
navigation state machine (package `tui`, file `internal/root.go`), the
run-command resolver (`cmd/run.go`), the dynamic command-surface builder
(`cmd/root.go`) and the filter field accessor (`cmd/filter.go`),
together with theorems settling the specification's claims about them.
-/

namespace Sunbeam

/-! ## Pages and events (tui package)

`Page` in the source is an interface `{Init, Update, View, SetSize}`.
The model only needs a page's identity, its stored size and its rendered
content; concrete page behaviour reached through `Update` is abstracted
as an explicit page-update function passed to the event handler. -/

/-- Page variant tag: `detail` marks pages built by `NewDetail` (used by the
error branch of `Model.Update`); every other page is `plain`. -/
inductive PageKind where
  | plain
  | detail
deriving DecidableEq, Repr

/-- Shallow page state: identity `pid`, the size stored by `SetSize`, and the
content the page renders. -/
structure PageM where
  kind : PageKind := .plain
  pid : Nat := 0
  width : Int := 0
  height : Int := 0
  content : String := ""
deriving DecidableEq, Repr

/-- `Page.SetSize(width, height)`: store the new dimensions. -/
def PageM.setSize (p : PageM) (w h : Int) : PageM :=
  { p with width := w, height := h }

/-- `Page.View()`: the page's rendered text. -/
def PageM.view (p : PageM) : String := p.content

/-- The `tea.Cmd` values `Model.Update` can return: nothing, `tea.Quit`,
an error command from `NewErrorCmd`, a page's `Init()` work, or an abstract
command produced by a page's own `Update`. -/
inductive TeaCmd where
  | none
  | quit
  | errorCmd (e : String)
  | pageInit (pid : Nat)
  | pageCmd (c : Nat)
deriving DecidableEq, Repr

/-- The `tea.Msg` values dispatched by `Model.Update`:
`tea.KeyMsg` (ctrl-c / escape / other keys), `tea.WindowSizeMsg`,
`OpenUrlMsg`, `CopyTextMsg`, `PushPageMsg`, `pushMsg`, `popMsg`,
`error`, and any other message (forwarded to the active page). -/
inductive Msg where
  | keyCtrlC
  | keyEscape
  | keyOther
  | windowSize (w h : Int)
  | openUrl (url : String)
  | copyText (text : String)
  | pushPage (p : PageM)
  | pushInternal (p : PageM)
  | pop
  | errorMsg (e : String)
  | custom (c : Nat)
deriving DecidableEq, Repr

/-- The navigation `Model`: stored dimensions, the root page, the stack of
pushed pages, and the `hidden` / `exit` flags. -/
structure Model where
  width : Int := 0
  height : Int := 0
  root : PageM
  pages : List PageM := []
  hidden : Bool := false
  exitFlag : Bool := false
deriving DecidableEq, Repr

/-- `Model.pageHeight()`: the height available to a page (the config
override in the source is commented out, so this is the stored height). -/
def Model.pageHeight (m : Model) : Int := m.height

/-- `Model.SetSize(width, height)`: store the new dimensions and propagate
them to the root page and to every page on the stack. -/
def Model.setSize (m : Model) (w h : Int) : Model :=
  let m1 := { m with width := w, height := h }
  { m1 with
    root := m1.root.setSize w m1.pageHeight
    pages := m1.pages.map (fun p => p.setSize m1.width m1.pageHeight) }

/-- The Detail page built by the error branch: `NewDetail("Error")`, sized to
the current content area, with the error text as viewport content. -/
def mkDetail (w h : Int) (err : String) : PageM :=
  { kind := .detail, pid := 0, width := w, height := h, content := err }

/-- `Model.Push(page)`: resize the page to the current content area, append
it to the stack, and return its deferred `Init()` work. -/
def Model.push (m : Model) (page : PageM) : Model × TeaCmd :=
  let page := page.setSize m.width m.pageHeight
  ({ m with pages := m.pages ++ [page] }, .pageInit page.pid)

/-- `Model.Pop()`: remove the top of the stack when the stack is non-empty. -/
def Model.popPage (m : Model) : Model :=
  if m.pages.length > 0 then { m with pages := m.pages.dropLast } else m

/-- The two capability calls used by `Model.Update`: `browser.OpenURL` and
`clipboard.WriteAll`. `none` models a nil error (success); `some e` models
a returned error. -/
structure Caps where
  openURL : String → Option String
  writeClipboard : String → Option String

/-- Forwarding branch at the end of `Model.Update`: update the active page
(top of stack when non-empty, else root) with the given message, replace it
with the page returned, and propagate the returned command. -/
def Model.forwardMsg (m : Model) (pupd : PageM → Msg → PageM × TeaCmd) (msg : Msg) :
    Model × TeaCmd :=
  if m.pages.isEmpty then
    let r := pupd m.root msg
    ({ m with root := r.1 }, r.2)
  else
    let r := pupd (m.pages.getLastD m.root) msg
    ({ m with pages := m.pages.set (m.pages.length - 1) r.1 }, r.2)

/-- `Model.Update(msg)`: the event loop's dispatch. `pupd` is the abstract
`Page.Update` behaviour of the active page. -/
def Model.handle (m : Model) (caps : Caps) (pupd : PageM → Msg → PageM × TeaCmd) :
    Msg → Model × TeaCmd
  | .keyCtrlC => ({ m with hidden := true, exitFlag := true }, .quit)
  | .keyEscape => m.forwardMsg pupd .keyEscape
  | .keyOther => m.forwardMsg pupd .keyOther
  | .windowSize w h => (m.setSize w h, .none)
  | .openUrl url =>
    match caps.openURL url with
    | some e => (m, .errorCmd e)
    | none => ({ m with hidden := true }, .quit)
  | .copyText text =>
    match caps.writeClipboard text with
    | some e => (m, .errorCmd ("failed to copy text to clipboard: " ++ e))
    | none => ({ m with hidden := true }, .quit)
  | .pushPage p => m.push p
  | .pushInternal p => m.push p
  | .pop =>
    if m.pages.isEmpty then (m, .quit) else (m.popPage, .none)
  | .errorMsg e =>
    let detail := mkDetail m.width m.pageHeight e
    if m.pages.isEmpty then
      ({ m with root := detail }, .pageInit detail.pid)
    else
      ({ m with pages := m.pages.set (m.pages.length - 1) detail }, .pageInit detail.pid)
  | .custom c => m.forwardMsg pupd (.custom c)

/-- `Model.View()`: empty string when hidden, otherwise the active page's
rendered text (top of the stack when non-empty, else the root). -/
def Model.view (m : Model) : String :=
  if m.hidden then "" else (m.pages.getLastD m.root).view

/-- The active page: top of the stack when non-empty, else the root. -/
def Model.activePage (m : Model) : PageM :=
  m.pages.getLastD m.root

/-- Apply a sequence of events to the model, threading the state. -/
def Model.applyEvents (m : Model) (caps : Caps) (pupd : PageM → Msg → PageM × TeaCmd) :
    List Msg → Model
  | [] => m
  | msg :: rest => ((m.handle caps pupd msg).1).applyEvents caps pupd rest

/-! ## Claim C1: stack discipline of push and pop -/

/-- A push-page or pop event, as fed to the navigation stack. -/
inductive StackEv where
  | push (p : PageM)
  | pop
deriving DecidableEq, Repr

/-- The message a stack event arrives as. -/
def StackEv.toMsg : StackEv → Msg
  | .push p => .pushPage p
  | .pop => .pop

/-- Pure stack semantics of one push or pop: push appends the page (resized
to the current content area), pop drops the last element. -/
def stackStep (w h : Int) (st : List PageM) : StackEv → List PageM
  | .push p => st ++ [p.setSize w h]
  | .pop => st.dropLast

theorem handle_stackEv (caps : Caps) (pupd : PageM → Msg → PageM × TeaCmd)
    (m : Model) (e : StackEv) :
    (m.handle caps pupd e.toMsg).1
      = { m with pages := stackStep m.width m.height m.pages e } := by
  cases e with
  | push p => rfl
  | pop =>
    match m with
    | ⟨w, h, root, pages, hid, ex⟩ =>
      cases pages with
      | nil => rfl
      | cons a t =>
        simp [Model.handle, StackEv.toMsg, Model.popPage, stackStep]

theorem applyEvents_stack (caps : Caps) (pupd : PageM → Msg → PageM × TeaCmd)
    (evs : List StackEv) : ∀ m : Model,
    (m.applyEvents caps pupd (evs.map StackEv.toMsg)).pages
        = evs.foldl (stackStep m.width m.height) m.pages
    ∧ (m.applyEvents caps pupd (evs.map StackEv.toMsg)).root = m.root
    ∧ (m.applyEvents caps pupd (evs.map StackEv.toMsg)).width = m.width
    ∧ (m.applyEvents caps pupd (evs.map StackEv.toMsg)).height = m.height
    ∧ (m.applyEvents caps pupd (evs.map StackEv.toMsg)).hidden = m.hidden := by
  induction evs with
  | nil => intro m; exact ⟨rfl, rfl, rfl, rfl, rfl⟩
  | cons e evs ih =>
    intro m
    have h1 : m.applyEvents caps pupd ((e :: evs).map StackEv.toMsg)
        = ((m.handle caps pupd e.toMsg).1).applyEvents caps pupd (evs.map StackEv.toMsg) := rfl
    rw [h1, handle_stackEv caps pupd m e]
    have ih2 := ih { m with pages := stackStep m.width m.height m.pages e }
    simpa using ih2

/-- Claim C1: after any sequence of push-page and pop events the active page
(the one `View` renders when not hidden) is the last pushed page not yet
popped — the top of the pure stack fold — or the root page when every push
has been matched by a pop; and a pop event arriving with an empty stack
returns the model unchanged together with `tea.Quit` (loop termination),
not an error and not a stack modification. -/
theorem navigation_stack_push_pop (caps : Caps) (pupd : PageM → Msg → PageM × TeaCmd)
    (m : Model) (evs : List StackEv) :
    (m.applyEvents caps pupd (evs.map StackEv.toMsg)).activePage
        = ((evs.foldl (stackStep m.width m.height) m.pages).getLastD m.root)
  ∧ (m.applyEvents caps pupd (evs.map StackEv.toMsg)).pages
        = evs.foldl (stackStep m.width m.height) m.pages
  ∧ ({ m with pages := [] } : Model).handle caps pupd .pop = ({ m with pages := [] }, .quit)
  ∧ ({ m with hidden := false } : Model).view = m.activePage.view := by
  obtain ⟨hp, hr, _, _, _⟩ := applyEvents_stack caps pupd evs m
  refine ⟨?_, hp, rfl, rfl⟩
  unfold Model.activePage
  rw [hp, hr]

def capsNone : Caps := ⟨fun _ => none, fun _ => none⟩

def pupdId : PageM → Msg → PageM × TeaCmd := fun p _ => (p, .none)

def pageA : PageM := { pid := 1 }

def pageB : PageM := { pid := 2 }

def modelR : Model := { root := { pid := 9 } }

/-- Witness for C1 at a concrete run: push A, push B, pop. -/
theorem navigation_stack_push_pop_witness :
    (modelR.applyEvents capsNone pupdId
        (([StackEv.push pageA, StackEv.push pageB, StackEv.pop]).map StackEv.toMsg)).activePage
      = (([StackEv.push pageA, StackEv.push pageB, StackEv.pop]).foldl
          (stackStep modelR.width modelR.height) modelR.pages).getLastD modelR.root :=
  (navigation_stack_push_pop capsNone pupdId modelR
    [StackEv.push pageA, StackEv.push pageB, StackEv.pop]).1

/-! ## Claims C4, C5, C9: error events, external-effect events, resize -/

theorem set_last_eq_dropLast_concat {α : Type} (x : α) :
    ∀ l : List α, l ≠ [] → l.set (l.length - 1) x = l.dropLast ++ [x]
  | [], h => absurd rfl h
  | [a], _ => rfl
  | a :: b :: t, _ => by
    have ih := set_last_eq_dropLast_concat x (b :: t) (by simp)
    have h1 : (a :: b :: t).set ((a :: b :: t).length - 1) x
        = a :: ((b :: t).set ((b :: t).length - 1) x) := by
      simp [List.length_cons]
    rw [h1, ih]
    rfl

theorem getLast?_set_last {α : Type} (x : α) (l : List α) (h : l ≠ []) :
    (l.set (l.length - 1) x).getLast? = some x := by
  rw [set_last_eq_dropLast_concat x l h]
  simp [List.getLast?_concat]

theorem dropLast_set_last {α : Type} (x : α) (l : List α) (h : l ≠ []) :
    (l.set (l.length - 1) x).dropLast = l.dropLast := by
  rw [set_last_eq_dropLast_concat x l h]
  simp [List.dropLast_concat]

/-- Claim C4: an error event replaces exactly the currently active page
(stack top when the stack is non-empty, else the root) with a Detail page
holding the error text; stack depth, the pages below the top, the stored
size and the hidden flag are unchanged, and the returned command is never
`tea.Quit`. -/
theorem error_event_replaces_active (caps : Caps) (pupd : PageM → Msg → PageM × TeaCmd)
    (m : Model) (e : String) :
    (m.handle caps pupd (.errorMsg e)).1.pages.length = m.pages.length
  ∧ (m.handle caps pupd (.errorMsg e)).1.hidden = m.hidden
  ∧ (m.handle caps pupd (.errorMsg e)).2 ≠ TeaCmd.quit
  ∧ (m.handle caps pupd (.errorMsg e)).1.activePage = mkDetail m.width m.pageHeight e
  ∧ (m.handle caps pupd (.errorMsg e)).1.pages.dropLast = m.pages.dropLast
  ∧ (m.handle caps pupd (.errorMsg e)).1.root
      = (if m.pages.isEmpty then mkDetail m.width m.pageHeight e else m.root)
  ∧ (m.handle caps pupd (.errorMsg e)).1.width = m.width
  ∧ (m.handle caps pupd (.errorMsg e)).1.height = m.height := by
  by_cases hp : m.pages.isEmpty
  · have he : m.pages = [] := by simpa using hp
    refine ⟨?_, ?_, ?_, ?_, ?_, ?_, ?_, ?_⟩ <;>
      simp [Model.handle, hp, he, Model.activePage]
  · have he : m.pages ≠ [] := by simpa using hp
    refine ⟨?_, ?_, ?_, ?_, ?_, ?_, ?_, ?_⟩ <;>
      simp [Model.handle, hp, Model.activePage, getLast?_set_last _ _ he,
        dropLast_set_last _ _ he]

/-- Witness for C4 at a concrete root-only model. -/
theorem error_event_replaces_active_witness :
    (modelR.handle capsNone pupdId (.errorMsg "bad")).1.activePage
        = mkDetail modelR.width modelR.pageHeight "bad"
  ∧ (modelR.handle capsNone pupdId (.errorMsg "bad")).2 ≠ TeaCmd.quit
  ∧ (modelR.handle capsNone pupdId (.errorMsg "bad")).1.pages.length
        = modelR.pages.length :=
  ⟨(error_event_replaces_active capsNone pupdId modelR "bad").2.2.2.1,
   (error_event_replaces_active capsNone pupdId modelR "bad").2.2.1,
   (error_event_replaces_active capsNone pupdId modelR "bad").1⟩

/-- Claim C5: on an open-url event the model calls the browser-open
capability; on success it hides and quits (so the next render is the empty
string); on failure it converts the error into an error command, does not
quit, and leaves the model (in particular `hidden`) unchanged. A copy-text
event behaves the same through the clipboard-write capability, wrapping
the error text. -/
theorem open_url_copy_text_events (caps : Caps) (pupd : PageM → Msg → PageM × TeaCmd)
    (m : Model) (url text : String) :
    (caps.openURL url = none →
        m.handle caps pupd (.openUrl url) = ({ m with hidden := true }, .quit)
      ∧ ({ m with hidden := true } : Model).view = "")
  ∧ (∀ e, caps.openURL url = some e →
        m.handle caps pupd (.openUrl url) = (m, .errorCmd e))
  ∧ (caps.writeClipboard text = none →
        m.handle caps pupd (.copyText text) = ({ m with hidden := true }, .quit)
      ∧ ({ m with hidden := true } : Model).view = "")
  ∧ (∀ e, caps.writeClipboard text = some e →
        m.handle caps pupd (.copyText text)
          = (m, .errorCmd ("failed to copy text to clipboard: " ++ e))) := by
  refine ⟨fun h => ⟨?_, rfl⟩, fun e h => ?_, fun h => ⟨?_, rfl⟩, fun e h => ?_⟩ <;>
    simp [Model.handle, h, Model.view]

def capsFail : Caps := ⟨fun _ => some "boom", fun _ => some "boom"⟩

/-- Witness for C5: both capability outcomes at concrete inputs. -/
theorem open_url_copy_text_events_witness :
    modelR.handle capsNone pupdId (.openUrl "https://example.com")
        = ({ modelR with hidden := true }, .quit)
  ∧ modelR.handle capsFail pupdId (.openUrl "https://example.com")
        = (modelR, .errorCmd "boom")
  ∧ modelR.handle capsNone pupdId (.copyText "hello")
        = ({ modelR with hidden := true }, .quit)
  ∧ modelR.handle capsFail pupdId (.copyText "hello")
        = (modelR, .errorCmd ("failed to copy text to clipboard: boom")) :=
  ⟨((open_url_copy_text_events capsNone pupdId modelR "https://example.com" "hello").1 rfl).1,
   (open_url_copy_text_events capsFail pupdId modelR "https://example.com" "hello").2.1 "boom" rfl,
   ((open_url_copy_text_events capsNone pupdId modelR "https://example.com" "hello").2.2.1 rfl).1,
   (open_url_copy_text_events capsFail pupdId modelR "https://example.com" "hello").2.2.2 "boom" rfl⟩

/-- Claim C9: a resize event stores the new dimensions and propagates them
to the root page and to every stacked page (all N+1 pages), preserving the
number and identity of the pages, and schedules no further work. -/
theorem resize_propagates_to_all_pages (caps : Caps) (pupd : PageM → Msg → PageM × TeaCmd)
    (m : Model) (w h : Int) :
    (m.handle caps pupd (.windowSize w h)).2 = TeaCmd.none
  ∧ (m.handle caps pupd (.windowSize w h)).1.width = w
  ∧ (m.handle caps pupd (.windowSize w h)).1.height = h
  ∧ (m.handle caps pupd (.windowSize w h)).1.root.width = w
  ∧ (m.handle caps pupd (.windowSize w h)).1.root.height = h
  ∧ (m.handle caps pupd (.windowSize w h)).1.pages.map PageM.width = m.pages.map (fun _ => w)
  ∧ (m.handle caps pupd (.windowSize w h)).1.pages.map PageM.height = m.pages.map (fun _ => h)
  ∧ (m.handle caps pupd (.windowSize w h)).1.pages.map PageM.pid = m.pages.map PageM.pid
  ∧ (m.handle caps pupd (.windowSize w h)).1.pages.length = m.pages.length
  ∧ (m.handle caps pupd (.windowSize w h)).1.root.pid = m.root.pid := by
  refine ⟨rfl, rfl, rfl, rfl, rfl, ?_, ?_, ?_, ?_, rfl⟩ <;>
    simp [Model.handle, Model.setSize, Model.pageHeight, PageM.setSize, List.map_map,
      Function.comp_def]

/-! ## Command resolver (cmd package, run command)

The `RunE` body of `NewRunCmd` classifies its origin argument and either
calls `runCommand` with a concrete executable, fails with `ExitCodeError{1}`
after printing the subcommand names, or returns a plain error. Filesystem,
network and manifest-parsing collaborators are abstracted as the fields of
`RunEnv`; the control flow below them is translated directly. -/

/-- One entry of a manifest command's `SubCommands` map. -/
structure SubCommand where
  Entrypoint : String
deriving DecidableEq, Repr

/-- The manifest command returned by `ParseCommand`: an optional entrypoint
and a subcommand mapping (keys unique). -/
structure ManifestCmd where
  Entrypoint : String := ""
  SubCommands : List (String × SubCommand) := []
deriving DecidableEq, Repr

/-- Collaborators of the run command: URL classification, fetch,
`os.Stat`, `findRoot`, `ParseCommand`, and path manipulation. An
`Except.error` models a non-nil Go error (for `fetch` it also covers a
non-200 status and the temporary-file errors). -/
structure RunEnv where
  manifestName : String
  isHttpsUrl : String → Bool
  fetch : String → Except String Unit
  tmpScriptPath : String
  stat : String → Except String Bool
  findRoot : String → Except String String
  parseCommand : String → Except String ManifestCmd
  baseName : String → String
  dirName : String → String
  joinPath : String → String → String

/-- Outcome of the run command: `exec` is a `runCommand` call with the
resolved executable, arguments and input; `usage c names` is the
`ExitCodeError{c}` path reached after printing `names`; `fail` is any other
returned error. -/
inductive RunOutcome where
  | exec (name : String) (args : List String) (input : String)
  | usage (code : Nat) (subnames : List String)
  | fail (msg : String)
deriving DecidableEq, Repr

/-- Steps 3-5 of the resolver, reached with a local `scriptPath`: plain
executable when the file name is not the manifest name; manifest entrypoint
when the parsed command declares one; otherwise subcommand dispatch on the
first remaining argument. -/
def resolveLocal (env : RunEnv) (scriptPath : String) (rest : List String)
    (input : String) : RunOutcome :=
  if env.baseName scriptPath ≠ env.manifestName then
    .exec scriptPath rest input
  else
    match env.parseCommand (env.dirName scriptPath) with
    | .error e => .fail ("could not parse command: " ++ e)
    | .ok command =>
      if command.Entrypoint ≠ "" then
        .exec (env.joinPath (env.dirName scriptPath) command.Entrypoint) rest input
      else
        match rest with
        | [] => .usage 1 (command.SubCommands.map Prod.fst)
        | sub :: rest2 =>
          match List.lookup sub command.SubCommands with
          | some c => .exec (env.joinPath (env.dirName scriptPath) c.Entrypoint) rest2 input
          | none => .fail ("subcommand not found: " ++ sub)

/-- The full `RunE` body: remote HTTPS origin first, then `os.Stat`,
directory reduction through `findRoot`, then the local steps. -/
def resolveRun (env : RunEnv) (origin : String) (rest : List String)
    (input : String) : RunOutcome :=
  if env.isHttpsUrl origin then
    match env.fetch origin with
    | .error e => .fail e
    | .ok _ => .exec env.tmpScriptPath rest input
  else
    match env.stat origin with
    | .error e => .fail e
    | .ok isDir =>
      if isDir then
        match env.findRoot origin with
        | .error e => .fail e
        | .ok rootPath => resolveLocal env rootPath rest input
      else
        resolveLocal env origin rest input

/-- Claim C2: the resolver's classification steps apply in fixed precedence
order with the first match winning — a remote HTTPS origin executes the
fetched script regardless of the local filesystem; a local directory is
reduced to its manifest and resolution continues on it; a file whose name
differs from the manifest name executes directly; and a manifest command
declaring a non-empty entrypoint executes that entrypoint joined to the
manifest's directory with the trailing arguments, for every value of the
subcommands map — the map is never consulted. -/
theorem resolver_precedence (env : RunEnv) (origin : String) (rest : List String)
    (input : String) :
    (env.isHttpsUrl origin = true → env.fetch origin = .ok () →
        resolveRun env origin rest input = .exec env.tmpScriptPath rest input)
  ∧ (∀ r, env.isHttpsUrl origin = false → env.stat origin = .ok true →
        env.findRoot origin = .ok r →
        resolveRun env origin rest input = resolveLocal env r rest input)
  ∧ (env.isHttpsUrl origin = false → env.stat origin = .ok false →
        env.baseName origin ≠ env.manifestName →
        resolveRun env origin rest input = .exec origin rest input)
  ∧ (∀ sp cmd, env.baseName sp = env.manifestName →
        env.parseCommand (env.dirName sp) = .ok cmd → cmd.Entrypoint ≠ "" →
        resolveLocal env sp rest input
          = .exec (env.joinPath (env.dirName sp) cmd.Entrypoint) rest input) := by
  refine ⟨fun h1 h2 => ?_, fun r h1 h2 h3 => ?_, fun h1 h2 h3 => ?_,
    fun sp cmd h1 h2 h3 => ?_⟩
  · simp [resolveRun, h1, h2]
  · simp [resolveRun, h1, h2, h3]
  · simp [resolveRun, resolveLocal, h1, h2, h3]
  · simp [resolveLocal, h1, h2, h3]

/-- Claim C3: with a manifest that declares no entrypoint, the resolver
dispatches on the first remaining argument: with no argument it fails with
exit code exactly 1 after listing every subcommand name; an argument not
matching any subcommand key is a hard error, not the exit-code-1 path; a
matching argument executes that subcommand's entrypoint with the remaining
arguments (the name consumed) and the original input. -/
theorem dispatcher_semantics (env : RunEnv) (sp input : String) (cmd : ManifestCmd)
    (hbase : env.baseName sp = env.manifestName)
    (hparse : env.parseCommand (env.dirName sp) = .ok cmd)
    (hentry : cmd.Entrypoint = "") :
    (resolveLocal env sp [] input = .usage 1 (cmd.SubCommands.map Prod.fst))
  ∧ (∀ sub rest2, List.lookup sub cmd.SubCommands = none →
        resolveLocal env sp (sub :: rest2) input
          = .fail ("subcommand not found: " ++ sub))
  ∧ (∀ sub rest2 c, List.lookup sub cmd.SubCommands = some c →
        resolveLocal env sp (sub :: rest2) input
          = .exec (env.joinPath (env.dirName sp) c.Entrypoint) rest2 input) := by
  refine ⟨?_, fun sub rest2 hl => ?_, fun sub rest2 c hl => ?_⟩ <;>
    simp [resolveLocal, hbase, hparse, hentry, *]

/-- A manifest command declaring both an entrypoint and a populated
subcommands map. -/
def cmdBoth : ManifestCmd :=
  { Entrypoint := "run.sh", SubCommands := [("list", ⟨"list.sh"⟩), ("view", ⟨"view.sh"⟩)] }

def envDemo : RunEnv where
  manifestName := "sunbeam.json"
  isHttpsUrl := fun s => s = "https://example.com/script.sh"
  fetch := fun _ => .ok ()
  tmpScriptPath := "/tmp/sunbeam-command"
  stat := fun s => if s = "/ext" then .ok true else .ok false
  findRoot := fun _ => .ok "/ext/sunbeam.json"
  parseCommand := fun _ => .ok cmdBoth
  baseName := fun s => if s = "/ext/sunbeam.json" then "sunbeam.json" else s
  dirName := fun _ => "/ext"
  joinPath := fun d f => d ++ "/" ++ f

/-- Witness for C2: a command with both an entrypoint and two subcommands
resolves to the entrypoint. -/
theorem resolver_precedence_witness :
    resolveLocal envDemo "/ext/sunbeam.json" ["extra"] "in"
      = .exec ("/ext" ++ "/" ++ "run.sh") ["extra"] "in" :=
  (resolver_precedence envDemo "/ext/sunbeam.json" ["extra"] "in").2.2.2
    "/ext/sunbeam.json" cmdBoth rfl rfl (by decide)

/-- A dispatcher manifest command: no entrypoint, two subcommands. -/
def cmdDispatch : ManifestCmd :=
  { Entrypoint := "", SubCommands := [("list", ⟨"list.sh"⟩), ("view", ⟨"view.sh"⟩)] }

def envDispatch : RunEnv :=
  { envDemo with parseCommand := fun _ => .ok cmdDispatch }

/-- Witness for C3: no argument lists both subcommand names with exit code 1;
an unmatched name is a hard error; a matched name runs its entrypoint on
the remaining arguments. -/
theorem dispatcher_semantics_witness :
    (resolveLocal envDispatch "/ext/sunbeam.json" [] "in" = .usage 1 ["list", "view"])
  ∧ (resolveLocal envDispatch "/ext/sunbeam.json" ["nope", "x"] "in"
      = .fail ("subcommand not found: " ++ "nope"))
  ∧ (resolveLocal envDispatch "/ext/sunbeam.json" ["view", "x"] "in"
      = .exec ("/ext" ++ "/" ++ "view.sh") ["x"] "in") :=
  ⟨(dispatcher_semantics envDispatch "/ext/sunbeam.json" "in" cmdDispatch rfl rfl rfl).1,
   (dispatcher_semantics envDispatch "/ext/sunbeam.json" "in" cmdDispatch rfl rfl rfl).2.1
     "nope" ["x"] (by decide),
   (dispatcher_semantics envDispatch "/ext/sunbeam.json" "in" cmdDispatch rfl rfl rfl).2.2
     "view" ["x"] ⟨"view.sh"⟩ (by decide)⟩

/-! ## Dynamic command-surface builder (cmd package, NewCustomCmd)

`NewCustomCmd` walks every command of an extension's manifest and, for each
parameter, registers a typed flag; a parameter whose declared type is not
"string" or "boolean", or whose non-nil default does not match the declared
type, makes the whole construction return a non-nil error. `Execute` aborts
with that error before `rootCmd.Execute()` runs. -/

/-- The Go `any` value of a `Param.Default` field (decoded JSON). -/
inductive JVal where
  | str (s : String)
  | bool (b : Bool)
  | num (n : Int)
  | other
deriving DecidableEq, Repr

def ParamTypeString : String := "string"

def ParamTypeBoolean : String := "boolean"

/-- A manifest `Param`: name, declared type, description, optional default
value (`none` is Go's nil) and the optional flag. -/
structure CmdParam where
  Name : String
  ptype : String
  Description : String := ""
  Default : Option JVal := none
  Optional : Bool := false
deriving DecidableEq, Repr

/-- A manifest `Command` as used by `NewCustomCmd`. -/
structure CmdCommand where
  Name : String := ""
  Title : String := ""
  Description : String := ""
  Hidden : Bool := false
  Params : List CmdParam := []
deriving DecidableEq, Repr

structure CmdManifest where
  Title : String := ""
  Description : String := ""
  Commands : List CmdCommand := []
deriving DecidableEq, Repr

structure CmdExtension where
  Manifest : CmdManifest
deriving DecidableEq, Repr

/-- One registered cobra flag: name, resolved type, resolved default and
required mark (`MarkFlagRequired` when the param is not optional). -/
structure FlagDef where
  name : String
  isBool : Bool := false
  defaultString : String := ""
  defaultBool : Bool := false
  required : Bool := false
deriving DecidableEq, Repr

/-- The flag-registration switch on `argument.ptype` in `NewCustomCmd`: a
string or boolean param registers a typed flag (checking that a non-nil
default is of the matching type); any other type is an error. -/
def buildFlag (argument : CmdParam) : Except String FlagDef :=
  if argument.ptype = ParamTypeString then
    match argument.Default with
    | none => .ok { name := argument.Name, isBool := false, required := !argument.Optional }
    | some (.str d) =>
      .ok { name := argument.Name, isBool := false, defaultString := d,
            required := !argument.Optional }
    | some _ => .error ("invalid default value for " ++ argument.Name)
  else if argument.ptype = ParamTypeBoolean then
    match argument.Default with
    | none => .ok { name := argument.Name, isBool := true, required := !argument.Optional }
    | some (.bool d) =>
      .ok { name := argument.Name, isBool := true, defaultBool := d,
            required := !argument.Optional }
    | some _ => .error ("invalid default value for " ++ argument.Name)
  else
    .error ("unsupported argument type: " ++ argument.ptype)

/-- Sequence a fallible builder over a list, stopping at the first error
(the loops in `NewCustomCmd` and `Execute` return on the first non-nil
error). -/
def traverseExcept {α β : Type} (f : α → Except String β) : List α → Except String (List β)
  | [] => .ok []
  | x :: xs =>
    match f x with
    | .error e => .error e
    | .ok y =>
      match traverseExcept f xs with
      | .error e => .error e
      | .ok ys => .ok (y :: ys)

/-- The generated subcommand for one manifest command. -/
structure SubCmdDef where
  use : String
  hidden : Bool := false
  flags : List FlagDef := []
deriving DecidableEq, Repr

def buildSubCommand (command : CmdCommand) : Except String SubCmdDef :=
  match traverseExcept buildFlag command.Params with
  | .error e => .error e
  | .ok fs => .ok { use := command.Name, hidden := command.Hidden, flags := fs }

/-- The generated extension command surface. -/
structure CustomCmdDef where
  use : String
  subcommands : List SubCmdDef := []
deriving DecidableEq, Repr

/-- `NewCustomCmd(name, extension)`. -/
def NewCustomCmd (name : String) (extension : CmdExtension) : Except String CustomCmdDef :=
  match traverseExcept buildSubCommand extension.Manifest.Commands with
  | .error e => .error e
  | .ok subs => .ok { use := name, subcommands := subs }

/-- The extension-registration loop of `Execute`: build every extension's
command surface, returning the first construction error before anything
is executed. -/
def registerExtensions : List (String × CmdExtension) → Except String (List CustomCmdDef) :=
  traverseExcept (fun p => NewCustomCmd p.1 p.2)

def exceptIsError {α : Type} : Except String α → Bool
  | .error _ => true
  | .ok _ => false

/-- A parameter the claim calls invalid: declared type neither string nor
boolean, or a non-nil default value not matching the declared type. -/
def badParam (p : CmdParam) : Prop :=
  (p.ptype ≠ ParamTypeString ∧ p.ptype ≠ ParamTypeBoolean)
  ∨ (∃ v, p.Default = some v ∧
      ((p.ptype = ParamTypeString ∧ ∀ s, v ≠ JVal.str s)
        ∨ (p.ptype = ParamTypeBoolean ∧ ∀ b, v ≠ JVal.bool b)))

theorem buildFlag_error_of_badParam (p : CmdParam) (h : badParam p) :
    exceptIsError (buildFlag p) = true := by
  rcases h with ⟨hs, hb⟩ | ⟨v, hd, ⟨ht, hv⟩ | ⟨ht, hv⟩⟩
  · simp [buildFlag, hs, hb, exceptIsError]
  · rw [buildFlag, if_pos ht, hd]
    cases v with
    | str s => exact absurd rfl (hv s)
    | bool b => simp [exceptIsError]
    | num n => simp [exceptIsError]
    | other => simp [exceptIsError]
  · have hne : p.ptype ≠ ParamTypeString := by
      rw [ht]; intro hc; exact absurd hc.symm (by decide)
    rw [buildFlag, if_neg hne, if_pos ht, hd]
    cases v with
    | str s => simp [exceptIsError]
    | bool b => exact absurd rfl (hv b)
    | num n => simp [exceptIsError]
    | other => simp [exceptIsError]

theorem traverseExcept_error_of_mem {α β : Type} (f : α → Except String β) (x : α)
    (hx : exceptIsError (f x) = true) :
    ∀ xs : List α, x ∈ xs → exceptIsError (traverseExcept f xs) = true := by
  intro xs hmem
  induction xs with
  | nil => cases hmem
  | cons a t ih =>
    rcases List.mem_cons.mp hmem with h | h
    · subst h
      cases hfa : f x with
      | error e => simp [traverseExcept, hfa, exceptIsError]
      | ok y => rw [hfa] at hx; simp [exceptIsError] at hx
    · cases hfa : f a with
      | error e => simp [traverseExcept, hfa, exceptIsError]
      | ok y =>
        have := ih h
        cases ht : traverseExcept f t with
        | error e => simp [traverseExcept, hfa, ht, exceptIsError]
        | ok ys => rw [ht] at this; simp [exceptIsError] at this

/-- Claim C6: an invalid parameter — unsupported declared type, or a
non-nil default value not matching the declared type — anywhere in an
extension's manifest makes `NewCustomCmd` return an error at construction
time (no command surface exists, so no invocation is possible), and the
registration loop of `Execute` aborts with an error for every extension
list containing that extension, so none of the extension's commands are
registered. -/
theorem custom_cmd_rejects_bad_param (name : String) (extension : CmdExtension)
    (command : CmdCommand) (p : CmdParam)
    (hc : command ∈ extension.Manifest.Commands) (hp : p ∈ command.Params)
    (hbad : badParam p) :
    exceptIsError (NewCustomCmd name extension) = true
  ∧ ∀ exts : List (String × CmdExtension), (name, extension) ∈ exts →
      exceptIsError (registerExtensions exts) = true := by
  have hflag := buildFlag_error_of_badParam p hbad
  have hparams := traverseExcept_error_of_mem buildFlag p hflag command.Params hp
  have hsub : exceptIsError (buildSubCommand command) = true := by
    cases ht : traverseExcept buildFlag command.Params with
    | error e => simp [buildSubCommand, ht, exceptIsError]
    | ok fs => rw [ht] at hparams; simp [exceptIsError] at hparams
  have hcmds := traverseExcept_error_of_mem buildSubCommand command hsub
    extension.Manifest.Commands hc
  have hnew : exceptIsError (NewCustomCmd name extension) = true := by
    cases ht : traverseExcept buildSubCommand extension.Manifest.Commands with
    | error e => simp [NewCustomCmd, ht, exceptIsError]
    | ok subs => rw [ht] at hcmds; simp [exceptIsError] at hcmds
  refine ⟨hnew, fun exts hmem => ?_⟩
  exact traverseExcept_error_of_mem (fun q => NewCustomCmd q.1 q.2) (name, extension)
    hnew exts hmem

/-- A command with a parameter of declared type "number". -/
def cmdWithNumberParam : CmdCommand :=
  { Name := "count-things", Params := [{ Name := "count", ptype := "number" }] }

/-- An extension with one valid command and one command holding the broken
"number" parameter. -/
def extWithNumberParam : CmdExtension :=
  { Manifest :=
    { Title := "Devtools"
      Commands :=
        [{ Name := "ok-cmd", Params := [{ Name := "verbose", ptype := "boolean" }] },
         cmdWithNumberParam] } }

/-- Witness for C6: the "number" parameter makes construction and
registration fail even though the extension's other command is valid. -/
theorem custom_cmd_rejects_bad_param_witness :
    exceptIsError (NewCustomCmd "devtools" extWithNumberParam) = true
  ∧ exceptIsError (registerExtensions [("devtools", extWithNumberParam)]) = true := by
  have h := custom_cmd_rejects_bad_param "devtools" extWithNumberParam
    cmdWithNumberParam { Name := "count", ptype := "number" }
    (by simp [extWithNumberParam, cmdWithNumberParam])
    (by simp [cmdWithNumberParam])
    (Or.inl (by constructor <;> decide))
  exact ⟨h.1, h.2 [("devtools", extWithNumberParam)] (by simp)⟩

/-! ## Root list comparator and history (tui package, NewRootList)

The comparator installed on the root list's filter is translated from the
source; the history map is represented as an association list with unique
keys. The list engine's sort itself lives outside the provided sources, so
it is modelled from the spec as a stable sort. -/

/-- A filter item as seen by the comparator: only its identifier matters. -/
structure FilterItem where
  itemId : String
deriving DecidableEq, Repr

/-- `FilterItem.ID()`. -/
def FilterItem.ID (i : FilterItem) : String := i.itemId

/-- The comparator `list.filter.Less` installed by `NewRootList`: look each
item's id up in the history, defaulting a missing entry to 0, and rank by
strictly greater last-run timestamp. -/
def rootLess (history : List (String × Int)) (i j : FilterItem) : Bool :=
  let iValue := (List.lookup i.ID history).getD 0
  let jValue := (List.lookup j.ID history).getD 0
  decide (iValue > jValue)

/-- An item's effective timestamp under the history: its last-run time, or
0 when it was never run. -/
def histValue (history : List (String × Int)) (i : FilterItem) : Int :=
  (List.lookup i.ID history).getD 0

/-- Modelled from the spec: the List/Filter Engine's ordering pass, whose
source is not in the provided excerpt, is required to be a stable sort
("ties must preserve original insertion order — the sort must be stable").
Stable insertion: an element moves past exactly the elements strictly
before it under `less`. -/
def insertStable {α : Type} (less : α → α → Bool) (x : α) : List α → List α
  | [] => [x]
  | y :: ys => if less y x then y :: insertStable less x ys else x :: y :: ys

/-- Modelled from the spec: the full stable sort over the item list. -/
def sortStable {α : Type} (less : α → α → Bool) : List α → List α
  | [] => []
  | x :: xs => insertStable less x (sortStable less xs)

theorem mem_insertStable {α : Type} (less : α → α → Bool) (x : α) :
    ∀ (l : List α) (a : α), a ∈ insertStable less x l → a = x ∨ a ∈ l := by
  intro l
  induction l with
  | nil =>
    intro a ha
    simp [insertStable] at ha
    exact Or.inl ha
  | cons y ys ih =>
    intro a ha
    unfold insertStable at ha
    cases hlt : less y x with
    | true =>
      rw [hlt] at ha
      simp only [if_true] at ha
      rcases List.mem_cons.mp ha with h | h
      · exact Or.inr (h ▸ List.mem_cons_self y ys)
      · rcases ih a h with h2 | h2
        · exact Or.inl h2
        · exact Or.inr (List.mem_cons_of_mem y h2)
    | false =>
      rw [hlt] at ha
      simp only [Bool.false_eq_true, if_false] at ha
      rcases List.mem_cons.mp ha with h | h
      · exact Or.inl h
      · exact Or.inr h

theorem pairwise_insertStable {α : Type} (less : α → α → Bool) (r : α → α → Prop)
    (h1 : ∀ a b, less a b = true → r a b)
    (h2 : ∀ a b, less a b = false → r b a)
    (h3 : ∀ a b c, r a b → r b c → r a c)
    (x : α) : ∀ l : List α, List.Pairwise r l → List.Pairwise r (insertStable less x l) := by
  intro l
  induction l with
  | nil => intro _; simp [insertStable]
  | cons y ys ih =>
    intro hl
    rcases List.pairwise_cons.mp hl with ⟨hy, hys⟩
    unfold insertStable
    cases hlt : less y x with
    | true =>
      simp only [if_true]
      refine List.pairwise_cons.mpr ⟨?_, ih hys⟩
      intro z hz
      rcases mem_insertStable less x ys z hz with hzx | hz2
      · rw [hzx]; exact h1 y x hlt
      · exact hy z hz2
    | false =>
      simp only [Bool.false_eq_true, if_false]
      refine List.pairwise_cons.mpr ⟨?_, hl⟩
      intro z hz
      rcases List.mem_cons.mp hz with hzy | hz2
      · rw [hzy]; exact h2 y x hlt
      · exact h3 x y z (h2 y x hlt) (hy z hz2)

theorem filter_insertStable {α : Type} (less : α → α → Bool) (p : α → Bool) (x : α)
    (hx : p x = true → ∀ y, less y x = true → p y = false) :
    ∀ l : List α, (insertStable less x l).filter p
      = if p x then x :: l.filter p else l.filter p := by
  intro l
  induction l with
  | nil =>
    cases hpx : p x <;> simp [insertStable, List.filter, hpx]
  | cons y ys ih =>
    unfold insertStable
    cases hlt : less y x with
    | true =>
      simp only [if_true]
      cases hpx : p x with
      | true =>
        have hpy : p y = false := hx hpx y hlt
        simp [List.filter_cons, hpy, ih, hpx]
      | false =>
        cases hpy : p y <;> simp [List.filter_cons, hpy, ih, hpx]
    | false =>
      simp only [Bool.false_eq_true, if_false]
      cases hpx : p x <;> simp [List.filter_cons, hpx]

theorem filter_sortStable {α : Type} (less : α → α → Bool) (p : α → Bool)
    (hcomp : ∀ x, p x = true → ∀ y, less y x = true → p y = false) :
    ∀ l : List α, (sortStable less l).filter p = l.filter p := by
  intro l
  induction l with
  | nil => rfl
  | cons x xs ih =>
    unfold sortStable
    rw [filter_insertStable less p x (hcomp x)]
    cases hpx : p x <;> simp [List.filter_cons, hpx, ih]

/-- Claim C7: the root list's comparator holds exactly when the first item's
last-run timestamp (0 when never run) strictly exceeds the second's; the
spec example [A never run, B at 10, C at 20] sorts to [C, B, A]; two
never-run items D, E keep insertion order [D, E]; and in general the stable
sort preserves the relative order of every timestamp tie class while
ordering items by descending effective timestamp. -/
theorem root_list_history_order (history : List (String × Int)) :
    (∀ i j, rootLess history i j = true ↔ histValue history i > histValue history j)
  ∧ sortStable (rootLess [("B", 10), ("C", 20)]) [⟨"A"⟩, ⟨"B"⟩, ⟨"C"⟩]
      = [⟨"C"⟩, ⟨"B"⟩, ⟨"A"⟩]
  ∧ sortStable (rootLess []) [⟨"D"⟩, ⟨"E"⟩] = [⟨"D"⟩, ⟨"E"⟩]
  ∧ (∀ (l : List FilterItem) (v : Int),
        (sortStable (rootLess history) l).filter (fun i => histValue history i == v)
          = l.filter (fun i => histValue history i == v))
  ∧ (∀ l : List FilterItem,
        List.Pairwise (fun a b => histValue history a ≥ histValue history b)
          (sortStable (rootLess history) l)) := by
  refine ⟨fun i j => ?_, by decide, by decide, fun l v => ?_, fun l => ?_⟩
  · simp [rootLess, histValue]
  · refine filter_sortStable (rootLess history) _ ?_ l
    intro x hpx y hless
    have hv : histValue history x = v := by simpa using hpx
    have hgt : histValue history y > histValue history x := by
      simpa [rootLess, histValue] using hless
    simp only [beq_eq_false_iff_ne, ne_eq]
    omega
  · induction l with
    | nil => simp [sortStable]
    | cons x xs ih =>
      unfold sortStable
      refine pairwise_insertStable (rootLess history)
        (fun a b => histValue history a ≥ histValue history b) ?_ ?_ ?_ x _ ih
      · intro a b hab
        have : histValue history a > histValue history b := by
          simpa [rootLess, histValue] using hab
        omega
      · intro a b hab
        have : ¬ histValue history a > histValue history b := by
          simpa [rootLess, histValue] using hab
        omega
      · intro a b c h1 h2
        omega

/-! ## Claim C8: the root-list run action

The `Cmd` closure attached to a root item's "Run Command" action, as a
state-passing function over the captured history map together with the
trace of filesystem operations it attempts. The Go closure discards the
`json.Marshal` and `os.WriteFile` results and the `os.MkdirAll` result, so
the success flags of `ActionEnv` are never consulted. -/

/-- A root item as carried by the root list: the manifest data plus the
stable history id. -/
structure AppRootItem where
  Extension : String := ""
  Command : String := ""
  Title : String := ""
  With : List (String × JVal) := []
deriving DecidableEq, Repr

structure RootItemWithID where
  rootItem : AppRootItem
  id : String
deriving DecidableEq, Repr

/-- A filesystem operation attempted by the run action, in order. -/
inductive RootEffect where
  | histSet (id : String) (t : Int)
  | mkdirAll (dir : String)
  | writeFile (path : String)
deriving DecidableEq, Repr

/-- The message the run action returns: `PushPageMsg` around
`NewCommandRunner(extension, command, with, [])`. -/
inductive RootMsg where
  | pushCommandRunner (extName cmdName : String) (withParams : List (String × JVal))
      (extraArgs : List String)
deriving DecidableEq, Repr

/-- Ambient state of one action invocation: the current time, whether the
state directory already exists, and the outcomes of the directory-creation
and file-write calls (both discarded by the source). -/
structure ActionEnv where
  now : Int
  stateDirExists : Bool
  mkdirOk : Bool := true
  writeOk : Bool := true
deriving DecidableEq, Repr

/-- Go map assignment `history[id] = t` on the association-list view. -/
def mapSet (m : List (String × Int)) (k : String) (v : Int) : List (String × Int) :=
  match m with
  | [] => [(k, v)]
  | (k2, v2) :: rest => if k2 = k then (k, v) :: rest else (k2, v2) :: mapSet rest k v

theorem lookup_mapSet (k : String) (v : Int) :
    ∀ m : List (String × Int), List.lookup k (mapSet m k v) = some v := by
  intro m
  induction m with
  | nil => simp [mapSet, List.lookup]
  | cons kv rest ih =>
    match kv with
    | (k2, v2) =>
      by_cases h : k2 = k
      · simp [mapSet, h, List.lookup]
      · have hbeq : (k == k2) = false := beq_eq_false_iff_ne.mpr fun hc => h hc.symm
        simp only [mapSet, if_neg h, List.lookup, hbeq]
        exact ih

/-- The run-action closure: record the run time in the captured history,
create the state directory when missing, rewrite the history file, and
return the push-page message for a Command-Runner page bound to the item's
extension, command and default parameters. -/
def runCommandAction (stateDir historyPath : String) (env : ActionEnv)
    (history : List (String × Int)) (item : RootItemWithID) :
    List (String × Int) × List RootEffect × RootMsg :=
  let history1 := mapSet history item.id env.now
  let effects1 := [RootEffect.histSet item.id env.now]
  let effects2 :=
    if env.stateDirExists then effects1 else effects1 ++ [RootEffect.mkdirAll stateDir]
  let effects3 := effects2 ++ [RootEffect.writeFile historyPath]
  (history1, effects3,
    RootMsg.pushCommandRunner item.rootItem.Extension item.rootItem.Command
      item.rootItem.With [])

/-- Claim C8: the run action (1) records the item's id at the current time
in the history, (2) attempts to create the state directory exactly when it
does not exist, (3) then rewrites the history file, and (4) returns a
push-page message for a Command-Runner page bound to the item's extension,
command and default parameters; the outcomes of the directory-creation and
file-write calls are never consulted, so failures there cannot suppress
the push-page message. -/
theorem run_action_order_and_push (stateDir historyPath : String) (env : ActionEnv)
    (history : List (String × Int)) (item : RootItemWithID) :
    (runCommandAction stateDir historyPath env history item).2.2
        = RootMsg.pushCommandRunner item.rootItem.Extension item.rootItem.Command
            item.rootItem.With []
  ∧ (runCommandAction stateDir historyPath env history item).2.1
        = [RootEffect.histSet item.id env.now]
            ++ (if env.stateDirExists then [] else [RootEffect.mkdirAll stateDir])
            ++ [RootEffect.writeFile historyPath]
  ∧ (runCommandAction stateDir historyPath env history item).1
        = mapSet history item.id env.now
  ∧ List.lookup item.id (runCommandAction stateDir historyPath env history item).1
        = some env.now
  ∧ (∀ b b2, runCommandAction stateDir historyPath
        { env with mkdirOk := b, writeOk := b2 } history item
          = runCommandAction stateDir historyPath env history item) := by
  refine ⟨rfl, ?_, rfl, lookup_mapSet item.id env.now history, fun b b2 => rfl⟩
  cases h : env.stateDirExists <;> simp [runCommandAction, h]

/-! ## Claim C10: the filter command's field accessor

`safeGet` from `cmd/filter.go`, with Go slice indexing made explicit: an
index below 0 or at/after the length panics, modelled as `none`. -/

/-- Go slice indexing `xs[i]`: the element for `0 <= i < len(xs)`, a panic
(`none`) otherwise. -/
def goIndex (xs : List String) (i : Int) : Option String :=
  if 0 ≤ i then xs.get? i.toNat else none

/-- `safeGet(tokens, idx)`: empty string for index 0 or an index beyond the
token count, otherwise the 1-based token `tokens[idx-1]`. -/
def safeGet (tokens : List String) (idx : Int) : Option String :=
  if idx = 0 then some ""
  else if idx > (tokens.length : Int) then some ""
  else goIndex tokens (idx - 1)

/-- Claim C10: `safeGet` returns the empty string for index 0 and for any
index beyond the token count, and the 1-based token for an in-range index;
but it is not total on negative indexes — at `tokens = ["a"]`, `idx = -1`
(reachable through the user-facing with-nth flag) the guards pass the
negative index through to `tokens[idx-1]`, an out-of-range slice access
(a runtime panic, modelled as `none`). -/
theorem safeGet_spec :
    (∀ ts : List String, safeGet ts 0 = some "")
  ∧ (∀ (ts : List String) (i : Int), i > (ts.length : Int) → safeGet ts i = some "")
  ∧ (∀ (ts : List String) (i : Int), 1 ≤ i → i ≤ (ts.length : Int) →
        safeGet ts i = ts.get? (i.toNat - 1))
  ∧ safeGet ["a"] (-1) = none := by
  refine ⟨fun ts => by simp [safeGet], fun ts i hi => ?_, fun ts i h1 h2 => ?_, by decide⟩
  · have hne : i ≠ 0 := by omega
    simp [safeGet, hne, hi]
  · have hne : i ≠ 0 := by omega
    have hle : ¬ i > (ts.length : Int) := by omega
    have hpos : 0 ≤ i - 1 := by omega
    have htn : (i - 1).toNat = i.toNat - 1 := by omega
    simp [safeGet, hne, hle, goIndex, hpos, htn]

/-- Witness for C10: in-range and beyond-range indexes at concrete input. -/
theorem safeGet_spec_witness :
    safeGet ["a", "b"] 2 = List.get? ["a", "b"] ((2 : Int).toNat - 1)
  ∧ safeGet ["a", "b"] 3 = some "" :=
  ⟨safeGet_spec.2.2.1 ["a", "b"] 2 (by decide) (by decide),
   safeGet_spec.2.1 ["a", "b"] 3 (by decide)⟩

end Sunbeam
